import Mathlib

/-!
Shallow embedding of the jcblocks rules engine (src/block.rs, src/canvas.rs,
src/game.rs).  Rust i32 coordinates are modelled as Int, usize sizes and
indices as Nat, Vec<PointStatus> as List PointStatus.  Vec indexing is
modelled with List.getD; all accesses performed by the code are in bounds
whenever the canvas is well formed (contents.length = rows * columns), which
is carried as a hypothesis where it matters.
-/

namespace JCBlocks

/-- Cell states of the board (canvas.rs, enum PointStatus). -/
inductive PointStatus where
  | Occupied
  | Empty
  | MarkedForRemoval
deriving DecidableEq, Repr

/-- A shape-local integer coordinate (block.rs, struct Point). -/
structure Point where
  x : Int
  y : Int
deriving DecidableEq, Repr

/-- Shape variant tag (block.rs, enum Variant). -/
inductive Variant where
  | Rectangle
  | Tee
  | Diagonal
  | Elle
  | Line
deriving DecidableEq, Repr

/-- Bounding measurement result (block.rs, struct Dimension). -/
structure Dimension where
  height : Nat
  width : Nat
deriving DecidableEq, Repr

/-- A shape: point list plus variant tag (block.rs, struct Block). -/
structure Block where
  coords : List Point
  variant : Variant
deriving DecidableEq, Repr

def MAX_RECTANGLE_EDGE : Nat := 3
def MAX_LINE_LENGTH : Nat := 5
def MIN_ELLE_EDGE : Nat := 2
def MAX_ELLE_EDGE : Nat := 3

/-- Rust usize::clamp(lo, hi) for lo ≤ hi. -/
def clampN (v lo hi : Nat) : Nat := max lo (min v hi)

/-- Point::rotate_right: x ← y, y ← 0 - x. -/
def Point.rotateRight (p : Point) : Point := ⟨p.y, 0 - p.x⟩

/-- Point::rotate_left: x ← 0 - y, y ← x. -/
def Point.rotateLeft (p : Point) : Point := ⟨0 - p.y, p.x⟩

/-- Block::tee — points (0,0),(1,0),(2,0),(1,1). -/
def Block.tee : Block :=
  ⟨((List.range 3).map (fun i : Nat => ⟨(i : Int), 0⟩)) ++ [⟨1, 1⟩], .Tee⟩

/-- Block::rectangle — nested loops over clamped width then clamped height. -/
def Block.rectangle (width height : Nat) : Block :=
  ⟨(List.range (clampN width 1 MAX_RECTANGLE_EDGE)).flatMap
      (fun i : Nat => (List.range (clampN height 1 MAX_RECTANGLE_EDGE)).map
        (fun j : Nat => ⟨(i : Int), (j : Int)⟩)),
   .Rectangle⟩

/-- Block::line — points (i, 0) for i below the clamped length. -/
def Block.line (length : Nat) : Block :=
  ⟨(List.range (clampN length 2 MAX_LINE_LENGTH)).map (fun i : Nat => ⟨(i : Int), 0⟩), .Line⟩

/-- Block::diagonal — points (i, i) for i below the requested width; no clamping. -/
def Block.diagonal (width : Nat) : Block :=
  ⟨(List.range width).map (fun i : Nat => ⟨(i : Int), (i : Int)⟩), .Diagonal⟩

/-- Block::elle — origin, then (i,0) for i in 1..clamp(height), then (0,i) for
i in 1..clamp(width). -/
def Block.elle (width height : Nat) : Block :=
  ⟨⟨0, 0⟩ ::
    ((List.range' 1 (clampN height MIN_ELLE_EDGE MAX_ELLE_EDGE - 1)).map
        (fun i : Nat => ⟨(i : Int), 0⟩) ++
      (List.range' 1 (clampN width MIN_ELLE_EDGE MAX_ELLE_EDGE - 1)).map
        (fun i : Nat => ⟨0, (i : Int)⟩)),
   .Elle⟩

/-- Block::rotate_right — rotate every point in place. -/
def Block.rotateRight (b : Block) : Block := ⟨b.coords.map Point.rotateRight, b.variant⟩

/-- Block::rotate_left — rotate every point in place. -/
def Block.rotateLeft (b : Block) : Block := ⟨b.coords.map Point.rotateLeft, b.variant⟩

/-- The maximum multiplicity of any value in a list — the "histogram then max"
computation of Block::dimensions (HashMap draining order is irrelevant to the
maximum, so the max over the counts of every element equals the max over the
counts of the distinct keys, with 0 for the empty histogram). -/
def maxCount (l : List Int) : Nat := (l.map (fun v => l.count v)).foldr max 0

/-- Block::dimensions — Diagonal shortcut, otherwise histogram maxima:
height groups by x, width groups by y. -/
def Block.dimensions (b : Block) : Dimension :=
  match b.variant with
  | .Diagonal => ⟨b.coords.length, b.coords.length⟩
  | _ => ⟨maxCount (b.coords.map Point.x), maxCount (b.coords.map Point.y)⟩

/-- Board state (canvas.rs, struct Canvas). -/
structure Canvas where
  columns : Nat
  rows : Nat
  contents : List PointStatus
deriving DecidableEq, Repr

def DEFAULT_CANVAS_HEIGHT : Nat := 8
def DEFAULT_CANVAS_WIDTH : Nat := 8

/-- Canvas::new — all-Empty grid of rows * columns cells. -/
def Canvas.new (rows columns : Nat) : Canvas :=
  ⟨columns, rows, List.replicate (rows * columns) .Empty⟩

/-- Canvas::clear_all — reset every cell to Empty. -/
def Canvas.clearAll (c : Canvas) : Canvas :=
  { c with contents := c.contents.map (fun _ => .Empty) }

/-- Canvas::position_to_index — Some(columns * y + x) for in-grid coordinates,
None outside. -/
def Canvas.positionToIndex (c : Canvas) (x y : Int) : Option Nat :=
  if x < 0 ∨ y < 0 ∨ (c.columns : Int) ≤ x ∨ (c.rows : Int) ≤ y then none
  else some (c.columns * y.toNat + x.toNat)

/-- Canvas::can_fit_at — false iff some translated point lands on an Occupied
cell; points mapping off-grid are skipped. -/
def Canvas.canFitAt (c : Canvas) (b : Block) (row column : Int) : Bool :=
  b.coords.all (fun p =>
    match c.positionToIndex (column + p.x) (row + p.y) with
    | some index =>
      match c.contents.getD index .Empty with
      | .Occupied => false
      | _ => true
    | none => true)

/-- Canvas::can_fit — scan of the loop nest
for row in 0..rows, for col in 0..columns, testing can_fit_at(block, col, row)
(the source passes col as can_fit_at's row parameter and row as its column
parameter). -/
def Canvas.canFit (c : Canvas) (b : Block) : Bool :=
  (List.range c.rows).any (fun row : Nat =>
    (List.range c.columns).any (fun col : Nat =>
      c.canFitAt b (col : Int) (row : Int)))

/-- A validated block/position pairing (canvas.rs, struct PlayableBlock).
In the source row/column are usize, produced from i32 by `as usize` and cast
back by `as i32` inside Canvas::add; that composite is the identity on every
i32 value, so the two fields are kept as Int here. -/
structure PlayableBlock where
  block : Block
  row : Int
  column : Int
deriving DecidableEq, Repr

/-- Canvas::try_make_playable — Some exactly when can_fit_at succeeds. -/
def Canvas.tryMakePlayable (c : Canvas) (b : Block) (row column : Int) :
    Option PlayableBlock :=
  if c.canFitAt b row column then some ⟨b, row, column⟩ else none

/-- Canvas::add — mark the index of every translated point that maps on-grid
as Occupied; off-grid points are skipped. -/
def Canvas.add (c : Canvas) (pb : PlayableBlock) : Canvas :=
  { c with contents := pb.block.coords.foldl (fun contents p =>
      match c.positionToIndex (pb.column + p.x) (pb.row + p.y) with
      | some index => contents.set index .Occupied
      | none => contents) c.contents }

/-- The occupancy sum of Canvas::is_complete_row: Occupied and
MarkedForRemoval cells each add 1, Empty adds 0. -/
def Canvas.rowOccCount (c : Canvas) (row : Nat) : Nat :=
  (List.range c.columns).foldl (fun (sum : Nat) (col : Nat) =>
    match c.positionToIndex (col : Int) (row : Int) with
    | some index =>
      match c.contents.getD index .Empty with
      | .Occupied => sum + 1
      | .MarkedForRemoval => sum + 1
      | .Empty => sum
    | none => sum) 0

/-- The occupancy sum of Canvas::is_complete_column. -/
def Canvas.colOccCount (c : Canvas) (column : Nat) : Nat :=
  (List.range c.rows).foldl (fun (sum : Nat) (row : Nat) =>
    match c.positionToIndex (column : Int) (row : Int) with
    | some index =>
      match c.contents.getD index .Empty with
      | .Occupied => sum + 1
      | .MarkedForRemoval => sum + 1
      | .Empty => sum
    | none => sum) 0

/-- Canvas::is_complete_row — None for an out-of-range row, otherwise whether
the occupancy sum reaches the column count. -/
def Canvas.isCompleteRow (c : Canvas) (row : Nat) : Option Bool :=
  if c.rows ≤ row then none
  else some (decide (c.rowOccCount row = c.columns))

/-- Canvas::is_complete_column. -/
def Canvas.isCompleteColumn (c : Canvas) (column : Nat) : Option Bool :=
  if c.columns ≤ column then none
  else some (decide (c.colOccCount column = c.rows))

/-- The inner marking loop of clear_completed_lines for one column. -/
def Canvas.markColumn (c : Canvas) (col : Nat) : Canvas :=
  { c with contents := (List.range c.rows).foldl (fun (contents : List PointStatus) (row : Nat) =>
      match c.positionToIndex (col : Int) (row : Int) with
      | some index => contents.set index .MarkedForRemoval
      | none => contents) c.contents }

/-- The inner marking loop of clear_completed_lines for one row. -/
def Canvas.markRow (c : Canvas) (row : Nat) : Canvas :=
  { c with contents := (List.range c.columns).foldl (fun (contents : List PointStatus) (col : Nat) =>
      match c.positionToIndex (col : Int) (row : Int) with
      | some index => contents.set index .MarkedForRemoval
      | none => contents) c.contents }

/-- First pass of clear_completed_lines: mark every complete column, counting. -/
def Canvas.colPass (c : Canvas) : Canvas × Nat :=
  (List.range c.columns).foldl (fun acc col =>
    if acc.1.isCompleteColumn col = some true then (acc.1.markColumn col, acc.2 + 1)
    else acc) (c, 0)

/-- Second pass of clear_completed_lines: mark every complete row, continuing
the count.  The loop bound is the rows field of the canvas being mutated,
which the passes never change. -/
def Canvas.rowPass (a : Canvas × Nat) : Canvas × Nat :=
  (List.range a.1.rows).foldl (fun acc row =>
    if acc.1.isCompleteRow row = some true then (acc.1.markRow row, acc.2 + 1)
    else acc) a

/-- Canvas::clear_completed_lines — mark complete columns, then complete rows,
then sweep every MarkedForRemoval cell to Empty; return the count. -/
def Canvas.clearCompletedLines (c : Canvas) : Canvas × Nat :=
  let a2 := Canvas.rowPass c.colPass
  ({ a2.1 with contents := a2.1.contents.map (fun p =>
      if p = PointStatus.MarkedForRemoval then PointStatus.Empty else p) },
   a2.2)

/-- Game state (game.rs, struct Game). -/
structure Game where
  canvas : Canvas
  score : Nat
deriving DecidableEq, Repr

def POINTS_PER_LINE_CLEAR : Nat := 50

/-- Game::update_score — add lines_cleared * POINTS_PER_LINE_CLEAR. -/
def Game.updateScore (g : Game) (linesCleared : Nat) : Game :=
  { g with score := g.score + linesCleared * POINTS_PER_LINE_CLEAR }

/-- Game::reset — clear the board and zero the score. -/
def Game.reset (g : Game) : Game := ⟨g.canvas.clearAll, 0⟩

/-- Game::maybe_place_block — on a failed try_make_playable return the error
with the game untouched; otherwise add the block, clear completed lines and
update the score.  The &mut self receiver plus Result<(), &str> return is
modelled as a (Game, Except String Unit) pair. -/
def Game.maybePlaceBlock (g : Game) (b : Block) (row column : Int) :
    Game × Except String Unit :=
  match g.canvas.tryMakePlayable b row column with
  | none => (g, Except.error "Unable to place block.")
  | some playable =>
    let afterAdd := g.canvas.add playable
    let result := afterAdd.clearCompletedLines
    (Game.updateScore { g with canvas := result.1 } result.2, Except.ok ())

/-- The loop of Game::generate_blocks: n slots, each filled from the current
shadow canvas, pushing each produced block and reversing at the end; any
failed slot aborts the whole batch.  naive_generate_block (which shuffles a
candidate pool with an external RNG and commits the fitted placement into the
shadow canvas) is abstracted as the gen parameter, returning the produced
block together with the updated shadow canvas. -/
def generateLoop (gen : Canvas → Option (Block × Canvas)) :
    Nat → Canvas → List Block → Option (List Block)
  | 0, _, blocks => some blocks.reverse
  | n + 1, shadow, blocks =>
    match gen shadow with
    | some (b, shadow2) => generateLoop gen n shadow2 (blocks ++ [b])
    | none => none

/-- Game::generate_blocks — run the batch loop on a clone of the real canvas;
only the shadow clone is ever consulted or updated. -/
def Game.generateBlocks (gen : Canvas → Option (Block × Canvas)) (g : Game)
    (n : Nat) : Option (List Block) :=
  generateLoop gen n g.canvas []

/-- The generation chain: the blocks of a batch in generation order, each
paired with the shadow canvas it was generated (and validated) against. -/
def genChain (gen : Canvas → Option (Block × Canvas)) :
    Nat → Canvas → Option (List (Block × Canvas))
  | 0, _ => some []
  | n + 1, shadow =>
    match gen shadow with
    | some (b, shadow2) => (genChain gen n shadow2).map (fun rest => (b, shadow) :: rest)
    | none => none

/-! ### Helper lemmas about rotation -/

lemma point_right_left (p : Point) : p.rotateRight.rotateLeft = p := by
  cases p
  simp only [Point.rotateRight, Point.rotateLeft, Point.mk.injEq, and_true, true_and]
  omega

lemma point_left_right (p : Point) : p.rotateLeft.rotateRight = p := by
  cases p
  simp only [Point.rotateRight, Point.rotateLeft, Point.mk.injEq, and_true, true_and]
  omega

lemma point_right_four (p : Point) :
    p.rotateRight.rotateRight.rotateRight.rotateRight = p := by
  cases p
  simp only [Point.rotateRight, Point.mk.injEq, and_true, true_and]
  omega

lemma point_left_four (p : Point) :
    p.rotateLeft.rotateLeft.rotateLeft.rotateLeft = p := by
  cases p
  simp only [Point.rotateLeft, Point.mk.injEq, and_true, true_and]
  omega

lemma block_map_id (b : Block) (f : Point → Point) (hf : ∀ p, f p = p) :
    b.coords.map f = b.coords := by
  rw [show f = id from funext hf, List.map_id]

/-- C7: rotation is exact and of order 4: four right (or left) rotations are
the identity on any shape, a right rotation followed by a left one (and vice
versa) is the identity, and the underlying integer point maps are
(x, y) → (y, -x) for right and (x, y) → (-y, x) for left. -/
theorem rotation_group_spec (b : Block) (p : Point) :
    b.rotateRight.rotateRight.rotateRight.rotateRight = b ∧
    b.rotateLeft.rotateLeft.rotateLeft.rotateLeft = b ∧
    b.rotateRight.rotateLeft = b ∧
    b.rotateLeft.rotateRight = b ∧
    p.rotateRight = ⟨p.y, -p.x⟩ ∧
    p.rotateLeft = ⟨-p.y, p.x⟩ := by
  obtain ⟨coords, variant⟩ := b
  refine ⟨?_, ?_, ?_, ?_, ?_, ?_⟩
  · simp only [Block.rotateRight, List.map_map, Block.mk.injEq, and_true]
    exact block_map_id ⟨coords, variant⟩
      (Point.rotateRight ∘ Point.rotateRight ∘ Point.rotateRight ∘ Point.rotateRight)
      (fun q => point_right_four q)
  · simp only [Block.rotateLeft, List.map_map, Block.mk.injEq, and_true]
    exact block_map_id ⟨coords, variant⟩
      (Point.rotateLeft ∘ Point.rotateLeft ∘ Point.rotateLeft ∘ Point.rotateLeft)
      (fun q => point_left_four q)
  · simp only [Block.rotateRight, Block.rotateLeft, List.map_map, Block.mk.injEq, and_true]
    exact block_map_id ⟨coords, variant⟩ (Point.rotateLeft ∘ Point.rotateRight)
      (fun q => point_right_left q)
  · simp only [Block.rotateRight, Block.rotateLeft, List.map_map, Block.mk.injEq, and_true]
    exact block_map_id ⟨coords, variant⟩ (Point.rotateRight ∘ Point.rotateLeft)
      (fun q => point_left_right q)
  · cases p
    simp only [Point.rotateRight, Point.mk.injEq]
    exact ⟨trivial, by omega⟩
  · cases p
    simp only [Point.rotateLeft, Point.mk.injEq]
    exact ⟨by omega, trivial⟩

/-! ### Helper lemmas about dimensions -/

lemma maxCount_map_neg (l : List Int) :
    maxCount (l.map (fun v => 0 - v)) = maxCount l := by
  unfold maxCount
  rw [List.map_map]
  congr 1
  have h : ∀ x : Int, ((fun v => (l.map (fun v => 0 - v)).count v) ∘ (fun v => 0 - v)) x
      = l.count x := by
    intro x
    simp only [Function.comp_apply]
    exact List.count_map_of_injective l (fun v => 0 - v) (fun a b hab => by dsimp at hab; omega) x
  rw [show ((fun v => (l.map (fun v => 0 - v)).count v) ∘ (fun v => 0 - v))
      = (fun x => l.count x) from funext h]

/-- C8: one rotation (either direction) swaps the reported width and height;
in particular a 2-long line reports 2 x 1 before and 1 x 2 after. -/
theorem dimensions_rotation_swap (b : Block) :
    b.rotateRight.dimensions = ⟨b.dimensions.width, b.dimensions.height⟩ ∧
    b.rotateLeft.dimensions = ⟨b.dimensions.width, b.dimensions.height⟩ ∧
    (Block.line 2).dimensions = ⟨1, 2⟩ ∧
    (Block.line 2).rotateLeft.dimensions = ⟨2, 1⟩ := by
  obtain ⟨coords, variant⟩ := b
  refine ⟨?_, ?_, by decide, by decide⟩
  · cases variant <;>
      simp only [Block.rotateRight, Block.dimensions, List.length_map, Dimension.mk.injEq,
        List.map_map] <;>
      constructor <;>
      first
        | rfl
        | (rw [show Point.x ∘ Point.rotateRight = Point.y from funext (fun p => rfl)])
        | (rw [show Point.y ∘ Point.rotateRight = (fun v => 0 - v) ∘ Point.x from
              funext (fun p => rfl), ← List.map_map]
           exact maxCount_map_neg _)
  · cases variant <;>
      simp only [Block.rotateLeft, Block.dimensions, List.length_map, Dimension.mk.injEq,
        List.map_map] <;>
      constructor <;>
      first
        | rfl
        | (rw [show Point.y ∘ Point.rotateLeft = Point.x from funext (fun p => rfl)])
        | (rw [show Point.x ∘ Point.rotateLeft = (fun v => 0 - v) ∘ Point.y from
              funext (fun p => rfl), ← List.map_map]
           exact maxCount_map_neg _)

/-! ### Helper lemmas about clamping -/

lemma clampN_13 (v : Nat) : clampN v 1 3 = 1 ∨ clampN v 1 3 = 2 ∨ clampN v 1 3 = 3 := by
  unfold clampN; omega

lemma clampN_23 (v : Nat) : clampN v 2 3 = 2 ∨ clampN v 2 3 = 3 := by
  unfold clampN; omega

lemma clampN_25 (v : Nat) :
    clampN v 2 5 = 2 ∨ clampN v 2 5 = 3 ∨ clampN v 2 5 = 4 ∨ clampN v 2 5 = 5 := by
  unfold clampN; omega

lemma clampN_13_idem (v : Nat) : clampN (clampN v 1 3) 1 3 = clampN v 1 3 := by
  unfold clampN; omega

lemma clampN_23_idem (v : Nat) : clampN (clampN v 2 3) 2 3 = clampN v 2 3 := by
  unfold clampN; omega

lemma clampN_25_idem (v : Nat) : clampN (clampN v 2 5) 2 5 = clampN v 2 5 := by
  unfold clampN; omega

/-- C9 counterexample: Block::diagonal(0) produces a shape with no points at
all, so not every constructor output contains at least one point for every
size argument. -/
theorem constructor_min_points_cex : (Block.diagonal 0).coords = [] := by
  decide

/-- C9 amended: every constructor output has no duplicate points; rectangle,
line, tee and elle always contain at least one point, and their sizes are
clamped into the documented closed ranges (rectangle edges 1..=3, line length
2..=5, elle edges 2..=3, witnessed by the point counts and by invariance of
the constructors under clamping their arguments); diagonal is unclamped and
produces exactly its requested number of points, hence at least one point
only when the requested width is nonzero. -/
theorem constructor_invariants_amended :
    (∀ w h, (Block.rectangle w h).coords.Nodup ∧ (Block.rectangle w h).coords ≠ [] ∧
      (Block.rectangle w h).coords.length = clampN w 1 3 * clampN h 1 3 ∧
      Block.rectangle w h = Block.rectangle (clampN w 1 3) (clampN h 1 3)) ∧
    (∀ n, (Block.line n).coords.Nodup ∧ (Block.line n).coords ≠ [] ∧
      (Block.line n).coords.length = clampN n 2 5 ∧
      Block.line n = Block.line (clampN n 2 5)) ∧
    (Block.tee.coords.Nodup ∧ Block.tee.coords ≠ []) ∧
    (∀ w h, (Block.elle w h).coords.Nodup ∧ (Block.elle w h).coords ≠ [] ∧
      (Block.elle w h).coords.length = clampN h 2 3 + clampN w 2 3 - 1 ∧
      Block.elle w h = Block.elle (clampN w 2 3) (clampN h 2 3)) ∧
    (∀ w, (Block.diagonal w).coords.Nodup ∧ (Block.diagonal w).coords.length = w) := by
  refine ⟨?_, ?_, by decide, ?_, ?_⟩
  · intro w h
    rcases clampN_13 w with hw | hw | hw <;> rcases clampN_13 h with hh | hh | hh <;>
      simp only [Block.rectangle, MAX_RECTANGLE_EDGE, hw, hh, clampN_13_idem] <;>
      decide
  · intro n
    rcases clampN_25 n with hn | hn | hn | hn <;>
      simp only [Block.line, MAX_LINE_LENGTH, hn, clampN_25_idem] <;>
      decide
  · intro w h
    rcases clampN_23 w with hw | hw <;> rcases clampN_23 h with hh | hh <;>
      simp only [Block.elle, MIN_ELLE_EDGE, MAX_ELLE_EDGE, hw, hh, clampN_23_idem] <;>
      decide
  · intro w
    constructor
    · have hinj : Function.Injective (fun i : Nat => (⟨(i : Int), (i : Int)⟩ : Point)) := by
        intro a b hab
        simp only [Point.mk.injEq] at hab
        exact_mod_cast hab.1
      exact List.Nodup.map hinj (List.nodup_range w)
    · simp only [Block.diagonal, List.length_map, List.length_range]

/-- C10: Block::elle swaps its parameter roles relative to Block::rectangle —
the x-axis arm has length clamp(height, 2, 3) and the y-axis arm length
clamp(width, 2, 3), so the measured width of elle(w, h) is the clamped height
argument and the measured height is the clamped width argument, while
rectangle(w, h) measures width clamp(w, 1, 3) and height clamp(h, 1, 3). -/
theorem elle_parameter_roles (w h : Nat) :
    (Block.elle w h).dimensions.width = clampN h 2 3 ∧
    (Block.elle w h).dimensions.height = clampN w 2 3 ∧
    ((Block.elle w h).coords.all (fun p => p.y == 0 || p.x == 0)) = true ∧
    (⟨(clampN h 2 3 : Int) - 1, 0⟩ : Point) ∈ (Block.elle w h).coords ∧
    (⟨0, (clampN w 2 3 : Int) - 1⟩ : Point) ∈ (Block.elle w h).coords ∧
    (Block.rectangle w h).dimensions.width = clampN w 1 3 ∧
    (Block.rectangle w h).dimensions.height = clampN h 1 3 := by
  rcases clampN_23 w with hw | hw <;> rcases clampN_23 h with hh | hh <;>
    rcases clampN_13 w with hw' | hw' | hw' <;> rcases clampN_13 h with hh' | hh' | hh' <;>
    simp only [Block.elle, Block.rectangle, MIN_ELLE_EDGE, MAX_ELLE_EDGE,
      MAX_RECTANGLE_EDGE, hw, hh, hw', hh'] <;>
    decide

/-! ### position_to_index helper lemmas -/

lemma positionToIndex_lt (c : Canvas) {x y : Int} {i : Nat}
    (h : c.positionToIndex x y = some i) : i < c.rows * c.columns := by
  unfold Canvas.positionToIndex at h
  split at h
  · exact absurd h (by simp)
  · rename_i hcond
    push_neg at hcond
    obtain ⟨hx0, hy0, hxc, hyr⟩ := hcond
    obtain rfl : c.columns * y.toNat + x.toNat = i := by
      simpa using h
    have hx : x.toNat < c.columns := by omega
    have hy : y.toNat < c.rows := by omega
    calc c.columns * y.toNat + x.toNat
        < c.columns * y.toNat + c.columns := by omega
      _ = c.columns * (y.toNat + 1) := by ring
      _ ≤ c.columns * c.rows := Nat.mul_le_mul_left _ (by omega)
      _ = c.rows * c.columns := Nat.mul_comm _ _

lemma positionToIndex_nat (c : Canvas) (col row : Nat) (hc : col < c.columns)
    (hr : row < c.rows) :
    c.positionToIndex (col : Int) (row : Int) = some (c.columns * row + col) := by
  unfold Canvas.positionToIndex
  rw [if_neg (by push_neg; refine ⟨by omega, by omega, by exact_mod_cast hc, by exact_mod_cast hr⟩)]
  simp

lemma positionToIndex_nat_none (c : Canvas) (col row : Nat)
    (h : c.columns ≤ col ∨ c.rows ≤ row) :
    c.positionToIndex (col : Int) (row : Int) = none := by
  unfold Canvas.positionToIndex
  rw [if_pos]
  rcases h with h | h
  · exact Or.inr (Or.inr (Or.inl (by exact_mod_cast h)))
  · exact Or.inr (Or.inr (Or.inr (by exact_mod_cast h)))

/-! ### C5: the origin scan of can_fit -/

/-- The board exhibiting the swapped-argument scan of Canvas::can_fit:
1 row, 2 columns, both cells Occupied. -/
def canFitBugBoard : Canvas := ⟨2, 1, [.Occupied, .Occupied]⟩

/-- C5: on the fully occupied 1-row 2-column board, can_fit accepts a 1x1
block although can_fit_at rejects every origin (row, column) with
row < rows and column < columns — the source passes the loop variables to
can_fit_at in swapped order, so it probes the off-board origin whose row
offset is 1 and accepts because every shape point falls off-grid there. -/
theorem can_fit_scan_bug :
    canFitBugBoard.canFit (Block.rectangle 1 1) = true ∧
    ((List.range canFitBugBoard.rows).all (fun row =>
      (List.range canFitBugBoard.columns).all (fun col =>
        !(canFitBugBoard.canFitAt (Block.rectangle 1 1) (row : Int) (col : Int))))) = true := by
  decide

/-! ### C2 and C3: the placement operation -/

/-- C2: maybe_place_block fails exactly when try_make_playable fails at that
origin, which happens exactly when can_fit_at rejects it, and a failed
placement leaves the game (board cells and score) unchanged. -/
theorem maybe_place_block_failure_spec (g : Game) (b : Block) (row column : Int) :
    ((g.maybePlaceBlock b row column).2 = Except.error "Unable to place block." ↔
      g.canvas.tryMakePlayable b row column = none) ∧
    (g.canvas.tryMakePlayable b row column = none ↔
      g.canvas.canFitAt b row column = false) ∧
    ((g.maybePlaceBlock b row column).2 = Except.error "Unable to place block." →
      (g.maybePlaceBlock b row column).1 = g) := by
  refine ⟨?_, ?_, ?_⟩
  · unfold Game.maybePlaceBlock
    cases h : g.canvas.tryMakePlayable b row column <;> simp [h]
  · unfold Canvas.tryMakePlayable
    cases h : g.canvas.canFitAt b row column <;> simp [h]
  · unfold Game.maybePlaceBlock
    cases h : g.canvas.tryMakePlayable b row column <;> simp [h]

/-- Witness for C2 at a concrete game and block. -/
theorem maybe_place_block_failure_spec_witness :
    (((Game.mk (Canvas.new 2 2) 0).maybePlaceBlock (Block.rectangle 1 1) 0 0).2 =
        Except.error "Unable to place block." ↔
      (Canvas.new 2 2).tryMakePlayable (Block.rectangle 1 1) 0 0 = none) ∧
    ((Canvas.new 2 2).tryMakePlayable (Block.rectangle 1 1) 0 0 = none ↔
      (Canvas.new 2 2).canFitAt (Block.rectangle 1 1) 0 0 = false) ∧
    (((Game.mk (Canvas.new 2 2) 0).maybePlaceBlock (Block.rectangle 1 1) 0 0).2 =
        Except.error "Unable to place block." →
      ((Game.mk (Canvas.new 2 2) 0).maybePlaceBlock (Block.rectangle 1 1) 0 0).1 =
        Game.mk (Canvas.new 2 2) 0) :=
  maybe_place_block_failure_spec (Game.mk (Canvas.new 2 2) 0) (Block.rectangle 1 1) 0 0

/-- C3: a successful placement returns Ok and adds exactly
lines_cleared * POINTS_PER_LINE_CLEAR (50 per line) to the score, where
lines_cleared is the count returned by clear_completed_lines for that
placement; clearing no line leaves the score unchanged. -/
theorem score_update_spec (g : Game) (b : Block) (row column : Int)
    (pb : PlayableBlock) (h : g.canvas.tryMakePlayable b row column = some pb) :
    (g.maybePlaceBlock b row column).2 = Except.ok () ∧
    (g.maybePlaceBlock b row column).1.score =
      g.score + ((g.canvas.add pb).clearCompletedLines).2 * POINTS_PER_LINE_CLEAR ∧
    POINTS_PER_LINE_CLEAR = 50 ∧
    (((g.canvas.add pb).clearCompletedLines).2 = 0 →
      (g.maybePlaceBlock b row column).1.score = g.score) := by
  unfold Game.maybePlaceBlock
  rw [h]
  refine ⟨rfl, rfl, rfl, ?_⟩
  intro h0
  simp [Game.updateScore, h0]

/-- Witness for C3: a successful 1x1 placement on an empty 2x2 board clears
no line and leaves the score unchanged. -/
theorem score_update_spec_witness :
    ((Canvas.new 2 2).tryMakePlayable (Block.rectangle 1 1) 0 0 =
      some ⟨Block.rectangle 1 1, 0, 0⟩) ∧
    (((Game.mk (Canvas.new 2 2) 3).maybePlaceBlock (Block.rectangle 1 1) 0 0).2 =
        Except.ok () ∧
      ((Game.mk (Canvas.new 2 2) 3).maybePlaceBlock (Block.rectangle 1 1) 0 0).1.score =
        3 + (((Canvas.new 2 2).add ⟨Block.rectangle 1 1, 0, 0⟩).clearCompletedLines).2 *
          POINTS_PER_LINE_CLEAR ∧
      POINTS_PER_LINE_CLEAR = 50 ∧
      ((((Canvas.new 2 2).add ⟨Block.rectangle 1 1, 0, 0⟩).clearCompletedLines).2 = 0 →
        ((Game.mk (Canvas.new 2 2) 3).maybePlaceBlock (Block.rectangle 1 1) 0 0).1.score =
          3)) :=
  ⟨by decide,
   score_update_spec (Game.mk (Canvas.new 2 2) 3) (Block.rectangle 1 1) 0 0
     ⟨Block.rectangle 1 1, 0, 0⟩ (by decide)⟩

/-! ### C4: can_fit_at and add -/

lemma getD_set_general {α : Type} (l : List α) (i j : Nat) (v d : α) :
    (l.set i v).getD j d = if i = j ∧ i < l.length then v else l.getD j d := by
  rw [List.getD_eq_getElem?_getD, List.getD_eq_getElem?_getD, List.getElem?_set]
  by_cases hij : i = j
  · subst hij
    by_cases hi : i < l.length
    · simp [hi]
    · simp [hi, List.getElem?_eq_none (by omega : l.length ≤ i)]
  · simp [hij]

lemma add_fold_length (c : Canvas) (pb : PlayableBlock) (ps : List Point)
    (cont : List PointStatus) :
    (ps.foldl (fun contents p =>
      match c.positionToIndex (pb.column + p.x) (pb.row + p.y) with
      | some index => contents.set index .Occupied
      | none => contents) cont).length = cont.length := by
  induction ps generalizing cont with
  | nil => rfl
  | cons p ps ih =>
    simp only [List.foldl_cons]
    rw [ih]
    cases c.positionToIndex (pb.column + p.x) (pb.row + p.y) <;> simp

lemma fold_set_getD {α : Type} (L : Nat) (f : α → Option Nat) (v : PointStatus)
    (hf : ∀ p i, f p = some i → i < L) :
    ∀ (ps : List α) (cont : List PointStatus), cont.length = L → ∀ j : Nat,
    (ps.foldl (fun contents p =>
      match f p with
      | some index => contents.set index v
      | none => contents) cont).getD j .Empty =
    if ps.any (fun p => f p == some j)
    then v else cont.getD j .Empty := by
  intro ps
  induction ps with
  | nil => simp
  | cons p ps ih =>
    intro cont hlen j
    simp only [List.foldl_cons, List.any_cons]
    obtain hp | ⟨i, hp⟩ := Option.eq_none_or_eq_some (f p)
    · simp only [hp]
      rw [ih cont hlen]
      simp
    · simp only [hp]
      rw [ih (cont.set i v) (by rw [List.length_set]; exact hlen)]
      have hi : i < cont.length := by
        rw [hlen]
        exact hf p i hp
      rw [getD_set_general]
      by_cases hij : i = j
      · subst hij
        simp [hi]
      · have hbeq : ((some i == some j) : Bool) = false := by
          simp [hij]
        simp [hbeq, hij]

lemma add_fold_getD (c : Canvas) (pb : PlayableBlock) (ps : List Point)
    (cont : List PointStatus) (hlen : cont.length = c.rows * c.columns) (j : Nat) :
    (ps.foldl (fun contents p =>
      match c.positionToIndex (pb.column + p.x) (pb.row + p.y) with
      | some index => contents.set index .Occupied
      | none => contents) cont).getD j .Empty =
    if ps.any (fun p => c.positionToIndex (pb.column + p.x) (pb.row + p.y) == some j)
    then .Occupied else cont.getD j .Empty :=
  fold_set_getD (c.rows * c.columns)
    (fun p => c.positionToIndex (pb.column + p.x) (pb.row + p.y))
    PointStatus.Occupied
    (fun _ _ h => positionToIndex_lt c h) ps cont hlen j

/-- The fit-check condition exactly as the claim states it: every translated
point either maps off-grid or maps to a cell that is not Occupied. -/
def FitAtClaim (c : Canvas) (b : Block) (row column : Int) : Prop :=
  ∀ p ∈ b.coords, ∀ i, c.positionToIndex (column + p.x) (row + p.y) = some i →
    c.contents.getD i .Empty ≠ .Occupied

/-- The add condition exactly as the claim states it: add marks exactly the
on-grid translated cells Occupied and touches nothing else (in particular
the off-grid part of the shape marks nothing). -/
def AddMarksClaim (c : Canvas) (pb : PlayableBlock) : Prop :=
  (c.add pb).contents.length = c.contents.length ∧
  (∀ p ∈ pb.block.coords, ∀ i,
    c.positionToIndex (pb.column + p.x) (pb.row + p.y) = some i →
    (c.add pb).contents.getD i .Empty = .Occupied) ∧
  (∀ j, (∀ p ∈ pb.block.coords,
      c.positionToIndex (pb.column + p.x) (pb.row + p.y) ≠ some j) →
    (c.add pb).contents.getD j .Empty = c.contents.getD j .Empty)

/-- C4: can_fit_at succeeds iff every translated shape point is off-grid or
lands on a non-Occupied cell (it is a pure function of the board), and add
marks exactly the on-grid translated cells Occupied, leaving every other
cell — including everything the off-grid part of the shape would cover —
unchanged. -/
theorem can_fit_at_spec (c : Canvas) (b : Block) (row column : Int)
    (pb : PlayableBlock) (hwf : c.contents.length = c.rows * c.columns) :
    (c.canFitAt b row column = true ↔ FitAtClaim c b row column) ∧
    AddMarksClaim c pb := by
  constructor
  · unfold Canvas.canFitAt FitAtClaim
    rw [List.all_eq_true]
    constructor
    · intro hall p hp i hi hocc
      have hmatch := hall p hp
      simp only [hi] at hmatch
      rw [hocc] at hmatch
      simp at hmatch
    · intro hcl p hp
      cases hp2 : c.positionToIndex (column + p.x) (row + p.y) with
      | none => simp
      | some i =>
        have hne := hcl p hp i hp2
        cases hst : c.contents.getD i .Empty <;> simp_all
  · unfold AddMarksClaim Canvas.add
    refine ⟨add_fold_length c pb _ _, ?_, ?_⟩
    · intro p hp i hi
      rw [add_fold_getD c pb _ _ hwf i, if_pos]
      exact List.any_eq_true.mpr ⟨p, hp, by simp [hi]⟩
    · intro j hnone
      rw [add_fold_getD c pb _ _ hwf j, if_neg]
      rw [List.any_eq_true]
      rintro ⟨p, hp, hbeq⟩
      exact hnone p hp (by simpa using hbeq)

/-- Witness for C4 at a concrete board, block and playable block. -/
theorem can_fit_at_spec_witness :
    ((Canvas.new 2 2).canFitAt (Block.line 2) 1 0 = true ↔
      FitAtClaim (Canvas.new 2 2) (Block.line 2) 1 0) ∧
    AddMarksClaim (Canvas.new 2 2) ⟨Block.line 2, 1, 0⟩ :=
  can_fit_at_spec (Canvas.new 2 2) (Block.line 2) 1 0 ⟨Block.line 2, 1, 0⟩ (by decide)

/-! ### C6: batch generation -/

lemma generateLoop_eq_genChain (gen : Canvas → Option (Block × Canvas)) :
    ∀ (n : Nat) (shadow : Canvas) (blocks : List Block),
    generateLoop gen n shadow blocks =
      (genChain gen n shadow).map (fun ch => (blocks ++ ch.map Prod.fst).reverse) := by
  intro n
  induction n with
  | zero =>
    intro shadow blocks
    simp [generateLoop, genChain]
  | succ k ih =>
    intro shadow blocks
    unfold generateLoop genChain
    obtain hg | ⟨⟨b, s2⟩, hg⟩ := Option.eq_none_or_eq_some (gen shadow)
    · simp [hg]
    · simp only [hg]
      rw [ih s2 (blocks ++ [b])]
      obtain hch | ⟨ch, hch⟩ := Option.eq_none_or_eq_some (genChain gen k s2)
      · simp [hch]
      · simp [hch, List.append_assoc]

lemma genChain_length (gen : Canvas → Option (Block × Canvas)) :
    ∀ (n : Nat) (shadow : Canvas) (ch : List (Block × Canvas)),
    genChain gen n shadow = some ch → ch.length = n := by
  intro n
  induction n with
  | zero =>
    intro shadow ch h
    simp only [genChain, Option.some.injEq] at h
    simp [← h]
  | succ k ih =>
    intro shadow ch h
    unfold genChain at h
    obtain hg | ⟨⟨b, s2⟩, hg⟩ := Option.eq_none_or_eq_some (gen shadow)
    · rw [hg] at h
      exact absurd h (by simp)
    · rw [hg] at h
      simp only [Option.map_eq_some'] at h
      obtain ⟨rest, hrest, hch⟩ := h
      rw [← hch]
      simp [ih s2 rest hrest]

lemma genChain_fit (gen : Canvas → Option (Block × Canvas))
    (hfit : ∀ c b c2, gen c = some (b, c2) → c.canFit b = true) :
    ∀ (n : Nat) (shadow : Canvas) (ch : List (Block × Canvas)),
    genChain gen n shadow = some ch → ∀ pr ∈ ch, (pr.2).canFit pr.1 = true := by
  intro n
  induction n with
  | zero =>
    intro shadow ch h
    simp only [genChain, Option.some.injEq] at h
    simp [← h]
  | succ k ih =>
    intro shadow ch h
    unfold genChain at h
    obtain hg | ⟨⟨b, s2⟩, hg⟩ := Option.eq_none_or_eq_some (gen shadow)
    · rw [hg] at h
      exact absurd h (by simp)
    · rw [hg] at h
      simp only [Option.map_eq_some'] at h
      obtain ⟨rest, hrest, hch⟩ := h
      rw [← hch]
      intro pr hpr
      rcases List.mem_cons.mp hpr with hhead | htail
      · rw [hhead]
        exact hfit shadow b s2 hg
      · exact ih s2 rest hrest pr htail

/-- C6: generate_blocks runs every slot against the evolving shadow canvas
(starting from a clone of the real board, which is never consulted again):
it returns exactly the generation chain's blocks reversed (last generated
first) when every slot succeeds, and nothing at all when any slot fails —
the chain has exactly n entries whenever it exists, and every generated
block fits the shadow canvas of its own slot. -/
theorem generate_blocks_batch_spec (gen : Canvas → Option (Block × Canvas))
    (g : Game) (n : Nat)
    (hfit : ∀ c b c2, gen c = some (b, c2) → c.canFit b = true) :
    g.generateBlocks gen n =
      (genChain gen n g.canvas).map (fun ch => (ch.map Prod.fst).reverse) ∧
    (genChain gen n g.canvas).all (fun ch => ch.length == n) = true ∧
    (genChain gen n g.canvas).all
      (fun ch => ch.all (fun pr => (pr.2).canFit pr.1)) = true := by
  refine ⟨?_, ?_, ?_⟩
  · unfold Game.generateBlocks
    rw [generateLoop_eq_genChain gen n g.canvas []]
    simp
  · obtain hch | ⟨ch, hch⟩ := Option.eq_none_or_eq_some (genChain gen n g.canvas)
    · simp [hch, Option.all]
    · rw [hch]
      simp only [Option.all]
      simp [genChain_length gen n g.canvas ch hch]
  · obtain hch | ⟨ch, hch⟩ := Option.eq_none_or_eq_some (genChain gen n g.canvas)
    · simp [hch, Option.all]
    · rw [hch]
      simp only [Option.all, List.all_eq_true]
      exact fun pr hpr => genChain_fit gen hfit n g.canvas ch hch pr hpr

/-- A per-slot generator that always fails, used to instantiate C6. -/
def gen0 : Canvas → Option (Block × Canvas) := fun _ => none

/-- The fit guarantee of gen0, stated as C6's hypothesis requires. -/
def gen0Fits : Prop := ∀ c b c2, gen0 c = some (b, c2) → c.canFit b = true

/-- Witness for C6 at a concrete generator, game and batch size. -/
theorem generate_blocks_batch_spec_witness :
    gen0Fits ∧
    ((Game.mk (Canvas.new 2 2) 0).generateBlocks gen0 3 =
      (genChain gen0 3 (Canvas.new 2 2)).map (fun ch => (ch.map Prod.fst).reverse) ∧
    (genChain gen0 3 (Canvas.new 2 2)).all (fun ch => ch.length == 3) = true ∧
    (genChain gen0 3 (Canvas.new 2 2)).all
      (fun ch => ch.all (fun pr => (pr.2).canFit pr.1)) = true) :=
  ⟨fun c b c2 h => by simp [gen0] at h,
   generate_blocks_batch_spec gen0 (Game.mk (Canvas.new 2 2) 0) 3
     (fun c b c2 h => by simp [gen0] at h)⟩

/-! ### C1: clear_completed_lines -/

/-- What the occupancy sums count: Occupied and MarkedForRemoval cells. -/
def occLike : PointStatus → Bool
  | .Occupied => true
  | .MarkedForRemoval => true
  | .Empty => false

/-- Whether the cell at (column, row) exists and counts as occupied. -/
def cellOcc (c : Canvas) (col row : Nat) : Bool :=
  match c.positionToIndex (col : Int) (row : Int) with
  | some index => occLike (c.contents.getD index .Empty)
  | none => false

lemma foldl_count_generic (p : Nat → Bool) (l : List Nat) :
    ∀ init : Nat,
    l.foldl (fun sum x => if p x then sum + 1 else sum) init = init + l.countP p := by
  induction l with
  | nil => intro init; simp
  | cons a l ih =>
    intro init
    rw [List.foldl_cons, ih, List.countP_cons]
    by_cases hpa : p a = true
    · rw [if_pos hpa, if_pos hpa]
      omega
    · rw [if_neg hpa, if_neg hpa]
      omega

lemma rowOccCount_eq (c : Canvas) (row : Nat) :
    c.rowOccCount row = (List.range c.columns).countP (fun col => cellOcc c col row) := by
  unfold Canvas.rowOccCount
  have hbody : (fun (sum : Nat) (col : Nat) =>
      match c.positionToIndex (col : Int) (row : Int) with
      | some index =>
        match c.contents.getD index PointStatus.Empty with
        | PointStatus.Occupied => sum + 1
        | PointStatus.MarkedForRemoval => sum + 1
        | PointStatus.Empty => sum
      | none => sum) =
      (fun (sum : Nat) (col : Nat) => if cellOcc c col row then sum + 1 else sum) := by
    funext sum col
    unfold cellOcc
    obtain hp | ⟨i, hp⟩ := Option.eq_none_or_eq_some (c.positionToIndex (col : Int) (row : Int))
    · simp [hp]
    · simp only [hp]
      cases c.contents.getD i .Empty <;> simp [occLike]
  rw [hbody, foldl_count_generic]
  simp

lemma colOccCount_eq (c : Canvas) (col : Nat) :
    c.colOccCount col = (List.range c.rows).countP (fun row => cellOcc c col row) := by
  unfold Canvas.colOccCount
  have hbody : (fun (sum : Nat) (row : Nat) =>
      match c.positionToIndex (col : Int) (row : Int) with
      | some index =>
        match c.contents.getD index PointStatus.Empty with
        | PointStatus.Occupied => sum + 1
        | PointStatus.MarkedForRemoval => sum + 1
        | PointStatus.Empty => sum
      | none => sum) =
      (fun (sum : Nat) (row : Nat) => if cellOcc c col row then sum + 1 else sum) := by
    funext sum row
    unfold cellOcc
    obtain hp | ⟨i, hp⟩ := Option.eq_none_or_eq_some (c.positionToIndex (col : Int) (row : Int))
    · simp [hp]
    · simp only [hp]
      cases c.contents.getD i .Empty <;> simp [occLike]
  rw [hbody, foldl_count_generic]
  simp

lemma isCompleteColumn_true_iff (c : Canvas) (col : Nat) :
    c.isCompleteColumn col = some true ↔
      col < c.columns ∧ ∀ row, row < c.rows → cellOcc c col row = true := by
  unfold Canvas.isCompleteColumn
  by_cases hcol : c.columns ≤ col
  · rw [if_pos hcol]
    constructor
    · intro h
      exact absurd h (by simp)
    · rintro ⟨h1, _⟩
      omega
  · rw [if_neg hcol, colOccCount_eq]
    constructor
    · intro h
      have hcnt : (List.range c.rows).countP (fun row => cellOcc c col row) = c.rows := by
        simpa using h
      refine ⟨by omega, fun row hrow => ?_⟩
      have := List.countP_eq_length.mp (by rw [hcnt, List.length_range])
      exact this row (List.mem_range.mpr hrow)
    · rintro ⟨_, h2⟩
      have hcnt : (List.range c.rows).countP (fun row => cellOcc c col row) =
          (List.range c.rows).length :=
        List.countP_eq_length.mpr (fun a ha => h2 a (List.mem_range.mp ha))
      rw [List.length_range] at hcnt
      simp [hcnt]

lemma isCompleteRow_true_iff (c : Canvas) (row : Nat) :
    c.isCompleteRow row = some true ↔
      row < c.rows ∧ ∀ col, col < c.columns → cellOcc c col row = true := by
  unfold Canvas.isCompleteRow
  by_cases hrow : c.rows ≤ row
  · rw [if_pos hrow]
    constructor
    · intro h
      exact absurd h (by simp)
    · rintro ⟨h1, _⟩
      omega
  · rw [if_neg hrow, rowOccCount_eq]
    constructor
    · intro h
      have hcnt : (List.range c.columns).countP (fun col => cellOcc c col row) = c.columns := by
        simpa using h
      refine ⟨by omega, fun col hcol => ?_⟩
      have := List.countP_eq_length.mp (by rw [hcnt, List.length_range])
      exact this col (List.mem_range.mpr hcol)
    · rintro ⟨_, h2⟩
      have hcnt : (List.range c.columns).countP (fun col => cellOcc c col row) =
          (List.range c.columns).length :=
        List.countP_eq_length.mpr (fun a ha => h2 a (List.mem_range.mp ha))
      rw [List.length_range] at hcnt
      simp [hcnt]

lemma cellOcc_eq (c : Canvas) (col row : Nat) (hc : col < c.columns) (hr : row < c.rows) :
    cellOcc c col row = occLike (c.contents.getD (c.columns * row + col) .Empty) := by
  unfold cellOcc
  rw [positionToIndex_nat c col row hc hr]

lemma positionToIndex_congr (d c : Canvas) (hcols : d.columns = c.columns)
    (hrows : d.rows = c.rows) (x y : Int) :
    d.positionToIndex x y = c.positionToIndex x y := by
  unfold Canvas.positionToIndex
  rw [hcols, hrows]

lemma cellOcc_congr (d c : Canvas) (hcols : d.columns = c.columns) (hrows : d.rows = c.rows)
    (hocc : ∀ j, occLike (d.contents.getD j .Empty) = occLike (c.contents.getD j .Empty))
    (col row : Nat) : cellOcc d col row = cellOcc c col row := by
  unfold cellOcc
  rw [positionToIndex_congr d c hcols hrows]
  obtain hp | ⟨i, hp⟩ := Option.eq_none_or_eq_some (c.positionToIndex (col : Int) (row : Int))
  · simp [hp]
  · simp only [hp]
    exact hocc i

lemma isCompleteColumn_congr (d c : Canvas) (hcols : d.columns = c.columns)
    (hrows : d.rows = c.rows)
    (hocc : ∀ j, occLike (d.contents.getD j .Empty) = occLike (c.contents.getD j .Empty))
    (col : Nat) : d.isCompleteColumn col = c.isCompleteColumn col := by
  unfold Canvas.isCompleteColumn
  rw [colOccCount_eq, colOccCount_eq, hcols, hrows,
    show (fun row => cellOcc d col row) = (fun row => cellOcc c col row) from
      funext (fun r => cellOcc_congr d c hcols hrows hocc col r)]

lemma isCompleteRow_congr (d c : Canvas) (hcols : d.columns = c.columns)
    (hrows : d.rows = c.rows)
    (hocc : ∀ j, occLike (d.contents.getD j .Empty) = occLike (c.contents.getD j .Empty))
    (row : Nat) : d.isCompleteRow row = c.isCompleteRow row := by
  unfold Canvas.isCompleteRow
  rw [rowOccCount_eq, rowOccCount_eq, hcols, hrows,
    show (fun col => cellOcc d col row) = (fun col => cellOcc c col row) from
      funext (fun a => cellOcc_congr d c hcols hrows hocc a row)]

lemma foldl_preserve_length {β : Type} (step : List PointStatus → β → List PointStatus)
    (hstep : ∀ cont b, (step cont b).length = cont.length) (l : List β) :
    ∀ cont, (l.foldl step cont).length = cont.length := by
  induction l with
  | nil => intro cont; rfl
  | cons a l ih =>
    intro cont
    rw [List.foldl_cons, ih]
    exact hstep cont a

lemma markColumn_columns (c : Canvas) (col : Nat) :
    (c.markColumn col).columns = c.columns := rfl

lemma markColumn_rows (c : Canvas) (col : Nat) :
    (c.markColumn col).rows = c.rows := rfl

lemma markColumn_length (c : Canvas) (col : Nat) :
    (c.markColumn col).contents.length = c.contents.length := by
  simp only [Canvas.markColumn]
  apply foldl_preserve_length
  intro cont row
  obtain hp | ⟨i, hp⟩ := Option.eq_none_or_eq_some (c.positionToIndex (col : Int) (row : Int))
  · simp [hp]
  · simp [hp]

lemma markRow_columns (c : Canvas) (row : Nat) :
    (c.markRow row).columns = c.columns := rfl

lemma markRow_rows (c : Canvas) (row : Nat) :
    (c.markRow row).rows = c.rows := rfl

lemma markRow_length (c : Canvas) (row : Nat) :
    (c.markRow row).contents.length = c.contents.length := by
  simp only [Canvas.markRow]
  apply foldl_preserve_length
  intro cont col
  obtain hp | ⟨i, hp⟩ := Option.eq_none_or_eq_some (c.positionToIndex (col : Int) (row : Int))
  · simp [hp]
  · simp [hp]

lemma markColumn_getD (c : Canvas) (col : Nat)
    (hwf : c.contents.length = c.rows * c.columns) (j : Nat) :
    (c.markColumn col).contents.getD j .Empty =
    if (List.range c.rows).any (fun row => c.positionToIndex (col : Int) (row : Int) == some j)
    then PointStatus.MarkedForRemoval else c.contents.getD j .Empty := by
  simp only [Canvas.markColumn]
  exact fold_set_getD (c.rows * c.columns)
    (fun row : Nat => c.positionToIndex (col : Int) (row : Int))
    PointStatus.MarkedForRemoval
    (fun _ _ h => positionToIndex_lt c h) (List.range c.rows) c.contents hwf j

lemma markRow_getD (c : Canvas) (row : Nat)
    (hwf : c.contents.length = c.rows * c.columns) (j : Nat) :
    (c.markRow row).contents.getD j .Empty =
    if (List.range c.columns).any (fun col => c.positionToIndex (col : Int) (row : Int) == some j)
    then PointStatus.MarkedForRemoval else c.contents.getD j .Empty := by
  simp only [Canvas.markRow]
  exact fold_set_getD (c.rows * c.columns)
    (fun col : Nat => c.positionToIndex (col : Int) (row : Int))
    PointStatus.MarkedForRemoval
    (fun _ _ h => positionToIndex_lt c h) (List.range c.columns) c.contents hwf j

lemma index_lt_of_grid (c : Canvas) (col row : Nat) (hcol : col < c.columns)
    (hrow : row < c.rows) : c.columns * row + col < c.rows * c.columns := by
  calc c.columns * row + col < c.columns * row + c.columns := by omega
    _ = c.columns * (row + 1) := by ring
    _ ≤ c.columns * c.rows := Nat.mul_le_mul_left _ (by omega)
    _ = c.rows * c.columns := Nat.mul_comm _ _

lemma markColumn_cond (c : Canvas) (col j : Nat) (hcol : col < c.columns)
    (hwf : c.contents.length = c.rows * c.columns) :
    ((List.range c.rows).any
      (fun row => c.positionToIndex (col : Int) (row : Int) == some j)) = true ↔
    (j < c.contents.length ∧ j % c.columns = col) := by
  rw [List.any_eq_true]
  constructor
  · rintro ⟨row, hrowmem, hbeq⟩
    rw [List.mem_range] at hrowmem
    have heq : c.positionToIndex (col : Int) (row : Int) = some j := by simpa using hbeq
    rw [positionToIndex_nat c col row hcol hrowmem] at heq
    have hj : c.columns * row + col = j := by simpa using heq
    subst hj
    refine ⟨?_, ?_⟩
    · rw [hwf]
      exact index_lt_of_grid c col row hcol hrowmem
    · rw [Nat.mul_add_mod]
      exact Nat.mod_eq_of_lt hcol
  · rintro ⟨hj, hmod⟩
    have hcpos : 0 < c.columns := by omega
    have hrowlt : j / c.columns < c.rows := by
      rw [Nat.div_lt_iff_lt_mul hcpos]
      rw [hwf] at hj
      exact hj
    refine ⟨j / c.columns, List.mem_range.mpr hrowlt, ?_⟩
    rw [positionToIndex_nat c col (j / c.columns) hcol hrowlt]
    have hidx : c.columns * (j / c.columns) + col = j := by
      conv_rhs => rw [← Nat.div_add_mod j c.columns]
      rw [hmod]
    simp [hidx]

lemma markRow_cond (c : Canvas) (row j : Nat) (hrow : row < c.rows)
    (hwf : c.contents.length = c.rows * c.columns) :
    ((List.range c.columns).any
      (fun col => c.positionToIndex (col : Int) (row : Int) == some j)) = true ↔
    (j < c.contents.length ∧ j / c.columns = row) := by
  rw [List.any_eq_true]
  constructor
  · rintro ⟨col, hcolmem, hbeq⟩
    rw [List.mem_range] at hcolmem
    have heq : c.positionToIndex (col : Int) (row : Int) = some j := by simpa using hbeq
    rw [positionToIndex_nat c col row hcolmem hrow] at heq
    have hj : c.columns * row + col = j := by simpa using heq
    subst hj
    have hcpos : 0 < c.columns := by omega
    refine ⟨?_, ?_⟩
    · rw [hwf]
      exact index_lt_of_grid c col row hcolmem hrow
    · rw [Nat.mul_add_div hcpos, Nat.div_eq_of_lt hcolmem]
      omega
  · rintro ⟨hj, hdiv⟩
    have hcpos : 0 < c.columns := by
      rcases Nat.eq_zero_or_pos c.columns with h0 | hpos
      · rw [h0, Nat.mul_zero] at hwf
        omega
      · exact hpos
    refine ⟨j % c.columns, List.mem_range.mpr (Nat.mod_lt _ hcpos), ?_⟩
    rw [positionToIndex_nat c (j % c.columns) row (Nat.mod_lt _ hcpos) hrow]
    have hidx : c.columns * row + j % c.columns = j := by
      rw [← hdiv]
      exact Nat.div_add_mod j c.columns
    simp [hidx]

lemma markColumn_char (c : Canvas) (col : Nat) (hcol : col < c.columns)
    (hwf : c.contents.length = c.rows * c.columns) (j : Nat) :
    (c.markColumn col).contents.getD j .Empty =
    if j < c.contents.length ∧ j % c.columns = col
    then PointStatus.MarkedForRemoval else c.contents.getD j .Empty := by
  rw [markColumn_getD c col hwf j]
  by_cases hcond : ((List.range c.rows).any
      (fun row => c.positionToIndex (col : Int) (row : Int) == some j)) = true
  · rw [if_pos hcond, if_pos ((markColumn_cond c col j hcol hwf).mp hcond)]
  · rw [if_neg hcond, if_neg (fun hh => hcond ((markColumn_cond c col j hcol hwf).mpr hh))]

lemma markRow_char (c : Canvas) (row : Nat) (hrow : row < c.rows)
    (hwf : c.contents.length = c.rows * c.columns) (j : Nat) :
    (c.markRow row).contents.getD j .Empty =
    if j < c.contents.length ∧ j / c.columns = row
    then PointStatus.MarkedForRemoval else c.contents.getD j .Empty := by
  rw [markRow_getD c row hwf j]
  by_cases hcond : ((List.range c.columns).any
      (fun col => c.positionToIndex (col : Int) (row : Int) == some j)) = true
  · rw [if_pos hcond, if_pos ((markRow_cond c row j hrow hwf).mp hcond)]
  · rw [if_neg hcond, if_neg (fun hh => hcond ((markRow_cond c row j hrow hwf).mpr hh))]

lemma markColumn_occ (c : Canvas) (col : Nat) (hcol : col < c.columns)
    (hwf : c.contents.length = c.rows * c.columns)
    (hcompl : c.isCompleteColumn col = some true) (j : Nat) :
    occLike ((c.markColumn col).contents.getD j .Empty) =
    occLike (c.contents.getD j .Empty) := by
  rw [markColumn_char c col hcol hwf j]
  by_cases hcond : j < c.contents.length ∧ j % c.columns = col
  · rw [if_pos hcond]
    obtain ⟨hj, hmod⟩ := hcond
    obtain ⟨_, hcells⟩ := (isCompleteColumn_true_iff c col).mp hcompl
    have hcpos : 0 < c.columns := by omega
    have hrowlt : j / c.columns < c.rows := by
      rw [Nat.div_lt_iff_lt_mul hcpos]
      rw [hwf] at hj
      exact hj
    have hc := hcells (j / c.columns) hrowlt
    rw [cellOcc_eq c col (j / c.columns) hcol hrowlt] at hc
    have hidx : c.columns * (j / c.columns) + col = j := by
      conv_rhs => rw [← Nat.div_add_mod j c.columns]
      rw [hmod]
    rw [hidx] at hc
    rw [hc]
    rfl
  · rw [if_neg hcond]

lemma markRow_occ (c : Canvas) (row : Nat) (hrow : row < c.rows)
    (hwf : c.contents.length = c.rows * c.columns)
    (hcompl : c.isCompleteRow row = some true) (j : Nat) :
    occLike ((c.markRow row).contents.getD j .Empty) =
    occLike (c.contents.getD j .Empty) := by
  rw [markRow_char c row hrow hwf j]
  by_cases hcond : j < c.contents.length ∧ j / c.columns = row
  · rw [if_pos hcond]
    obtain ⟨hj, hdiv⟩ := hcond
    obtain ⟨_, hcells⟩ := (isCompleteRow_true_iff c row).mp hcompl
    have hcpos : 0 < c.columns := by
      rcases Nat.eq_zero_or_pos c.columns with h0 | hpos
      · rw [h0, Nat.mul_zero] at hwf
        omega
      · exact hpos
    have hc := hcells (j % c.columns) (Nat.mod_lt _ hcpos)
    rw [cellOcc_eq c (j % c.columns) row (Nat.mod_lt _ hcpos) hrow] at hc
    have hidx : c.columns * row + j % c.columns = j := by
      rw [← hdiv]
      exact Nat.div_add_mod j c.columns
    rw [hidx] at hc
    rw [hc]
    rfl
  · rw [if_neg hcond]

/-- The column pass truncated after the first k columns (proof device). -/
def colPassUpTo (c : Canvas) (k : Nat) : Canvas × Nat :=
  (List.range k).foldl (fun acc col =>
    if acc.1.isCompleteColumn col = some true then (acc.1.markColumn col, acc.2 + 1)
    else acc) (c, 0)

lemma colPass_eq_upTo (c : Canvas) : c.colPass = colPassUpTo c c.columns := rfl

lemma colPassUpTo_succ (c : Canvas) (k : Nat) :
    colPassUpTo c (k + 1) =
    (if (colPassUpTo c k).1.isCompleteColumn k = some true
     then ((colPassUpTo c k).1.markColumn k, (colPassUpTo c k).2 + 1)
     else colPassUpTo c k) := by
  unfold colPassUpTo
  rw [List.range_succ, List.foldl_append]
  rfl

lemma colPassUpTo_spec (c : Canvas) (hwf : c.contents.length = c.rows * c.columns) :
    ∀ k, k ≤ c.columns →
    (colPassUpTo c k).1.columns = c.columns ∧
    (colPassUpTo c k).1.rows = c.rows ∧
    (colPassUpTo c k).1.contents.length = c.contents.length ∧
    (∀ j, occLike ((colPassUpTo c k).1.contents.getD j .Empty) =
      occLike (c.contents.getD j .Empty)) ∧
    (∀ j, (colPassUpTo c k).1.contents.getD j .Empty =
      if j < c.contents.length ∧ j % c.columns < k ∧
          c.isCompleteColumn (j % c.columns) = some true
      then PointStatus.MarkedForRemoval else c.contents.getD j .Empty) ∧
    (colPassUpTo c k).2 =
      (List.range k).countP (fun col => decide (c.isCompleteColumn col = some true)) := by
  intro k
  induction k with
  | zero =>
    intro _
    refine ⟨rfl, rfl, rfl, fun j => rfl, fun j => ?_, rfl⟩
    rw [if_neg (by omega)]
    rfl
  | succ k ih =>
    intro hk
    have hk' : k ≤ c.columns := by omega
    have hkcol : k < c.columns := by omega
    obtain ⟨hc1, hc2, hc3, hocc, hchar, hcnt⟩ := ih hk'
    have hwfa : (colPassUpTo c k).1.contents.length =
        (colPassUpTo c k).1.rows * (colPassUpTo c k).1.columns := by
      rw [hc1, hc2, hc3, hwf]
    have htest : (colPassUpTo c k).1.isCompleteColumn k = c.isCompleteColumn k :=
      isCompleteColumn_congr _ c hc1 hc2 hocc k
    rw [colPassUpTo_succ, htest]
    by_cases hcompl : c.isCompleteColumn k = some true
    · rw [if_pos hcompl]
      have hcompla : (colPassUpTo c k).1.isCompleteColumn k = some true := by
        rw [htest]; exact hcompl
      refine ⟨?_, ?_, ?_, ?_, ?_, ?_⟩
      · rw [markColumn_columns, hc1]
      · rw [markColumn_rows, hc2]
      · rw [markColumn_length, hc3]
      · intro j
        rw [markColumn_occ _ k (by rw [hc1]; exact hkcol) hwfa hcompla j]
        exact hocc j
      · intro j
        rw [markColumn_char _ k (by rw [hc1]; exact hkcol) hwfa j, hc3, hc1, hchar j]
        by_cases hjm : j % c.columns = k
        · by_cases hjl : j < c.contents.length
          · rw [if_pos ⟨hjl, hjm⟩,
              if_pos ⟨hjl, by omega, by rw [hjm]; exact hcompl⟩]
          · rw [if_neg (fun hh => hjl hh.1), if_neg (fun hh => hjl hh.1),
              if_neg (fun hh => hjl hh.1)]
        · rw [if_neg (fun hh => hjm hh.2)]
          by_cases hin : j < c.contents.length ∧ j % c.columns < k ∧
              c.isCompleteColumn (j % c.columns) = some true
          · rw [if_pos hin, if_pos ⟨hin.1, by omega, hin.2.2⟩]
          · rw [if_neg hin, if_neg (fun hh => hin ⟨hh.1, by omega, hh.2.2⟩)]
      · rw [List.range_succ, List.countP_append, hcnt]
        simp [hcompl]
    · rw [if_neg hcompl]
      refine ⟨hc1, hc2, hc3, hocc, ?_, ?_⟩
      · intro j
        rw [hchar j]
        by_cases hjm : j % c.columns = k
        · rw [if_neg (by rw [hjm]; omega),
            if_neg (fun hh => hcompl (by rw [← hjm]; exact hh.2.2))]
        · by_cases hin : j < c.contents.length ∧ j % c.columns < k ∧
              c.isCompleteColumn (j % c.columns) = some true
          · rw [if_pos hin, if_pos ⟨hin.1, by omega, hin.2.2⟩]
          · rw [if_neg hin, if_neg (fun hh => hin ⟨hh.1, by omega, hh.2.2⟩)]
      · rw [List.range_succ, List.countP_append, hcnt]
        simp [hcompl]

/-- The row pass truncated after the first k rows (proof device). -/
def rowPassUpTo (a : Canvas × Nat) (k : Nat) : Canvas × Nat :=
  (List.range k).foldl (fun acc row =>
    if acc.1.isCompleteRow row = some true then (acc.1.markRow row, acc.2 + 1)
    else acc) a

lemma rowPass_eq_upTo (a : Canvas × Nat) : Canvas.rowPass a = rowPassUpTo a a.1.rows := rfl

lemma rowPassUpTo_succ (a : Canvas × Nat) (k : Nat) :
    rowPassUpTo a (k + 1) =
    (if (rowPassUpTo a k).1.isCompleteRow k = some true
     then ((rowPassUpTo a k).1.markRow k, (rowPassUpTo a k).2 + 1)
     else rowPassUpTo a k) := by
  unfold rowPassUpTo
  rw [List.range_succ, List.foldl_append]
  rfl

lemma rowPassUpTo_spec (c d : Canvas) (m : Nat)
    (hdc : d.columns = c.columns) (hdr : d.rows = c.rows)
    (hdl : d.contents.length = c.contents.length)
    (hocc0 : ∀ j, occLike (d.contents.getD j .Empty) = occLike (c.contents.getD j .Empty))
    (hwf : c.contents.length = c.rows * c.columns) :
    ∀ k, k ≤ c.rows →
    (rowPassUpTo (d, m) k).1.columns = c.columns ∧
    (rowPassUpTo (d, m) k).1.rows = c.rows ∧
    (rowPassUpTo (d, m) k).1.contents.length = c.contents.length ∧
    (∀ j, occLike ((rowPassUpTo (d, m) k).1.contents.getD j .Empty) =
      occLike (c.contents.getD j .Empty)) ∧
    (∀ j, (rowPassUpTo (d, m) k).1.contents.getD j .Empty =
      if j < c.contents.length ∧ j / c.columns < k ∧
          c.isCompleteRow (j / c.columns) = some true
      then PointStatus.MarkedForRemoval else d.contents.getD j .Empty) ∧
    (rowPassUpTo (d, m) k).2 =
      m + (List.range k).countP (fun row => decide (c.isCompleteRow row = some true)) := by
  intro k
  induction k with
  | zero =>
    intro _
    refine ⟨hdc, hdr, hdl, hocc0, fun j => ?_, rfl⟩
    rw [if_neg (fun hh => Nat.not_lt_zero _ hh.2.1)]
    rfl
  | succ k ih =>
    intro hk
    have hk' : k ≤ c.rows := by omega
    have hkrow : k < c.rows := by omega
    obtain ⟨hc1, hc2, hc3, hocc, hchar, hcnt⟩ := ih hk'
    have hwfa : (rowPassUpTo (d, m) k).1.contents.length =
        (rowPassUpTo (d, m) k).1.rows * (rowPassUpTo (d, m) k).1.columns := by
      rw [hc1, hc2, hc3, hwf]
    have htest : (rowPassUpTo (d, m) k).1.isCompleteRow k = c.isCompleteRow k :=
      isCompleteRow_congr _ c hc1 hc2 hocc k
    rw [rowPassUpTo_succ, htest]
    by_cases hcompl : c.isCompleteRow k = some true
    · rw [if_pos hcompl]
      have hcompla : (rowPassUpTo (d, m) k).1.isCompleteRow k = some true := by
        rw [htest]; exact hcompl
      refine ⟨?_, ?_, ?_, ?_, ?_, ?_⟩
      · rw [markRow_columns, hc1]
      · rw [markRow_rows, hc2]
      · rw [markRow_length, hc3]
      · intro j
        rw [markRow_occ _ k (by rw [hc2]; exact hkrow) hwfa hcompla j]
        exact hocc j
      · intro j
        rw [markRow_char _ k (by rw [hc2]; exact hkrow) hwfa j, hc3, hc1, hchar j]
        by_cases hjm : j / c.columns = k
        · by_cases hjl : j < c.contents.length
          · rw [if_pos ⟨hjl, hjm⟩,
              if_pos ⟨hjl, by omega, by rw [hjm]; exact hcompl⟩]
          · rw [if_neg (fun hh => hjl hh.1), if_neg (fun hh => hjl hh.1),
              if_neg (fun hh => hjl hh.1)]
        · rw [if_neg (fun hh => hjm hh.2)]
          by_cases hin : j < c.contents.length ∧ j / c.columns < k ∧
              c.isCompleteRow (j / c.columns) = some true
          · rw [if_pos hin, if_pos ⟨hin.1, by omega, hin.2.2⟩]
          · rw [if_neg hin, if_neg (fun hh => hin ⟨hh.1, by omega, hh.2.2⟩)]
      · rw [List.range_succ, List.countP_append, hcnt]
        simp [hcompl]
        omega
    · rw [if_neg hcompl]
      refine ⟨hc1, hc2, hc3, hocc, ?_, ?_⟩
      · intro j
        rw [hchar j]
        by_cases hjm : j / c.columns = k
        · rw [if_neg (by rw [hjm]; omega),
            if_neg (fun hh => hcompl (by rw [← hjm]; exact hh.2.2))]
        · by_cases hin : j < c.contents.length ∧ j / c.columns < k ∧
              c.isCompleteRow (j / c.columns) = some true
          · rw [if_pos hin, if_pos ⟨hin.1, by omega, hin.2.2⟩]
          · rw [if_neg hin, if_neg (fun hh => hin ⟨hh.1, by omega, hh.2.2⟩)]
      · rw [List.range_succ, List.countP_append, hcnt]
        simp [hcompl]

/-- The number of columns that are complete in the given board state. -/
def completedColumnCount (c : Canvas) : Nat :=
  (List.range c.columns).countP (fun col => decide (c.isCompleteColumn col = some true))

/-- The number of rows that are complete in the given board state. -/
def completedRowCount (c : Canvas) : Nat :=
  (List.range c.rows).countP (fun row => decide (c.isCompleteRow row = some true))

/-- The contents the claim predicts after a clear: the cells of the lines
that were complete in the pre-clear state become Empty, every other cell is
unchanged. -/
def clearSpecContents (c : Canvas) : List PointStatus :=
  (List.range c.contents.length).map (fun j =>
    if c.isCompleteColumn (j % c.columns) = some true ∨
        c.isCompleteRow (j / c.columns) = some true
    then PointStatus.Empty else c.contents.getD j .Empty)

/-- A fully occupied board with the given dimensions. -/
def allOccupied (rows cols : Nat) : Canvas :=
  ⟨cols, rows, List.replicate (rows * cols) .Occupied⟩

lemma getElem_eq_getD (l : List PointStatus) (i : Nat) (h : i < l.length) :
    l[i] = l.getD i .Empty := by
  rw [List.getD_eq_getElem?_getD, List.getElem?_eq_getElem h]
  rfl

lemma sweep_getD (l : List PointStatus) (j : Nat) (hj : j < l.length) :
    (l.map (fun p => if p = PointStatus.MarkedForRemoval then PointStatus.Empty else p)).getD
        j .Empty =
    (if l.getD j .Empty = PointStatus.MarkedForRemoval then PointStatus.Empty
     else l.getD j .Empty) := by
  rw [List.getD_eq_getElem?_getD, List.getElem?_map, List.getElem?_eq_getElem hj,
    getElem_eq_getD l j hj]
  rfl

lemma clearCompletedLines_char (c : Canvas)
    (hwf : c.contents.length = c.rows * c.columns) :
    (c.clearCompletedLines).2 = completedColumnCount c + completedRowCount c ∧
    (c.clearCompletedLines).1.columns = c.columns ∧
    (c.clearCompletedLines).1.rows = c.rows ∧
    (c.clearCompletedLines).1.contents.length = c.contents.length ∧
    (∀ j, j < c.contents.length →
      (c.clearCompletedLines).1.contents.getD j .Empty =
      if c.isCompleteColumn (j % c.columns) = some true ∨
          c.isCompleteRow (j / c.columns) = some true
      then PointStatus.Empty
      else (if c.contents.getD j .Empty = PointStatus.MarkedForRemoval
            then PointStatus.Empty else c.contents.getD j .Empty)) := by
  obtain ⟨a1c, a1r, a1l, a1occ, a1char, a1cnt⟩ :=
    colPassUpTo_spec c hwf c.columns (le_refl _)
  have hpair : (colPassUpTo c c.columns) =
      ((colPassUpTo c c.columns).1, (colPassUpTo c c.columns).2) := rfl
  obtain ⟨a2c, a2r, a2l, a2occ, a2char, a2cnt⟩ :=
    rowPassUpTo_spec c (colPassUpTo c c.columns).1 (colPassUpTo c c.columns).2
      a1c a1r a1l a1occ hwf c.rows (le_refl _)
  have hunfold : c.clearCompletedLines =
      ({ (rowPassUpTo (colPassUpTo c c.columns) c.rows).1 with
          contents := (rowPassUpTo (colPassUpTo c c.columns) c.rows).1.contents.map
            (fun p => if p = PointStatus.MarkedForRemoval then PointStatus.Empty else p) },
        (rowPassUpTo (colPassUpTo c c.columns) c.rows).2) := by
    unfold Canvas.clearCompletedLines
    rw [colPass_eq_upTo, rowPass_eq_upTo, a1r]
  rw [hunfold, hpair]
  refine ⟨?_, ?_, ?_, ?_, ?_⟩
  · simp only []
    rw [a2cnt, a1cnt]
    rfl
  · simp only []
    exact a2c
  · simp only []
    exact a2r
  · simp only [List.length_map]
    exact a2l
  · intro j hj
    simp only []
    rw [sweep_getD _ j (by rw [a2l]; exact hj), a2char j, a1char j]
    have hcpos : 0 < c.columns := by
      rcases Nat.eq_zero_or_pos c.columns with h0 | hpos
      · rw [hwf, h0, Nat.mul_zero] at hj
        omega
      · exact hpos
    have hdiv : j / c.columns < c.rows := by
      rw [Nat.div_lt_iff_lt_mul hcpos]
      rw [hwf] at hj
      exact hj
    have hmod : j % c.columns < c.columns := Nat.mod_lt _ hcpos
    by_cases hrc : c.isCompleteRow (j / c.columns) = some true
    · simp [hrc, hj, hdiv]
    · by_cases hcc : c.isCompleteColumn (j % c.columns) = some true
      · simp [hrc, hcc, hj, hdiv, hmod]
      · simp [hrc, hcc]

/-- C1: clear_completed_lines returns the number of columns that are complete
in the pre-clear state plus the number of rows complete in that same state (a
cell at a cleared intersection counts toward both totals); afterwards exactly
the cells of those complete lines are Empty and every other cell is
unchanged.  On an all-Occupied board every line is complete, so every cell is
cleared and the returned count is rows + columns. -/
theorem clear_completed_lines_spec :
    (∀ c : Canvas, c.contents.length = c.rows * c.columns →
      PointStatus.MarkedForRemoval ∉ c.contents →
      (c.clearCompletedLines).2 = completedColumnCount c + completedRowCount c ∧
      (c.clearCompletedLines).1.columns = c.columns ∧
      (c.clearCompletedLines).1.rows = c.rows ∧
      (c.clearCompletedLines).1.contents = clearSpecContents c) ∧
    (∀ rows cols : Nat,
      (allOccupied rows cols).clearCompletedLines =
        (Canvas.mk cols rows (List.replicate (rows * cols) PointStatus.Empty),
          rows + cols)) := by
  constructor
  · intro c hwf hclean
    obtain ⟨h2, hcols, hrows, hlen, hchar⟩ := clearCompletedLines_char c hwf
    refine ⟨h2, hcols, hrows, ?_⟩
    apply List.ext_getElem
    · rw [hlen]
      unfold clearSpecContents
      rw [List.length_map, List.length_range]
    · intro i h1 h2'
      have hi : i < c.contents.length := by
        rw [← hlen]
        exact h1
      rw [getElem_eq_getD _ i h1, hchar i hi]
      have hnotm : c.contents.getD i .Empty ≠ PointStatus.MarkedForRemoval := by
        intro hcontra
        apply hclean
        have hgm : c.contents[i] = PointStatus.MarkedForRemoval := by
          rw [getElem_eq_getD c.contents i hi]
          exact hcontra
        exact hgm ▸ List.getElem_mem hi
      unfold clearSpecContents
      rw [List.getElem_map, List.getElem_range]
      rw [if_neg hnotm]
  · intro rows cols
    have hwf : (allOccupied rows cols).contents.length =
        (allOccupied rows cols).rows * (allOccupied rows cols).columns := by
      simp [allOccupied]
    obtain ⟨h2, hcols, hrows, hlen, hchar⟩ := clearCompletedLines_char (allOccupied rows cols) hwf
    have hcomplcol : ∀ col, col < cols →
        (allOccupied rows cols).isCompleteColumn col = some true := by
      intro col hcol
      rw [isCompleteColumn_true_iff]
      refine ⟨hcol, fun row hrow => ?_⟩
      rw [cellOcc_eq _ col row hcol hrow]
      have hidx : cols * row + col < rows * cols :=
        index_lt_of_grid (allOccupied rows cols) col row hcol hrow
      have : (List.replicate (rows * cols) PointStatus.Occupied).getD
          (cols * row + col) .Empty = PointStatus.Occupied := by
        rw [List.getD_eq_getElem?_getD, List.getElem?_replicate, if_pos hidx]
        rfl
      simp only [allOccupied]
      rw [this]
      rfl
    have hcomplrow : ∀ row, row < rows →
        (allOccupied rows cols).isCompleteRow row = some true := by
      intro row hrow
      rw [isCompleteRow_true_iff]
      refine ⟨hrow, fun col hcol => ?_⟩
      rw [cellOcc_eq _ col row hcol hrow]
      have hidx : cols * row + col < rows * cols :=
        index_lt_of_grid (allOccupied rows cols) col row hcol hrow
      have : (List.replicate (rows * cols) PointStatus.Occupied).getD
          (cols * row + col) .Empty = PointStatus.Occupied := by
        rw [List.getD_eq_getElem?_getD, List.getElem?_replicate, if_pos hidx]
        rfl
      simp only [allOccupied]
      rw [this]
      rfl
    have hcount2 : (allOccupied rows cols).clearCompletedLines.2 = rows + cols := by
      rw [h2]
      have hc : completedColumnCount (allOccupied rows cols) = cols := by
        unfold completedColumnCount
        rw [show ((List.range (allOccupied rows cols).columns)) = List.range cols from rfl]
        calc (List.range cols).countP
              (fun col => decide ((allOccupied rows cols).isCompleteColumn col = some true))
            = (List.range cols).length := List.countP_eq_length.mpr
              (fun a ha => by simp [hcomplcol a (List.mem_range.mp ha)])
          _ = cols := List.length_range cols
      have hr : completedRowCount (allOccupied rows cols) = rows := by
        unfold completedRowCount
        rw [show ((List.range (allOccupied rows cols).rows)) = List.range rows from rfl]
        calc (List.range rows).countP
              (fun row => decide ((allOccupied rows cols).isCompleteRow row = some true))
            = (List.range rows).length := List.countP_eq_length.mpr
              (fun a ha => by simp [hcomplrow a (List.mem_range.mp ha)])
          _ = rows := List.length_range rows
      rw [hc, hr]
      omega
    have hcontents : (allOccupied rows cols).clearCompletedLines.1.contents =
        List.replicate (rows * cols) PointStatus.Empty := by
      apply List.ext_getElem
      · rw [hlen]
        simp [allOccupied]
      · intro i h1 h2'
        have hi : i < (allOccupied rows cols).contents.length := by
          rw [← hlen]
          exact h1
        have hi' : i < rows * cols := by
          simpa [allOccupied] using hi
        have hcpos : 0 < cols := by
          rcases Nat.eq_zero_or_pos cols with h0 | hpos
          · rw [h0, Nat.mul_zero] at hi'
            omega
          · exact hpos
        have hchar2 := hchar i hi
        rw [show (allOccupied rows cols).columns = cols from rfl] at hchar2
        rw [getElem_eq_getD _ i h1, hchar2,
          if_pos (Or.inl (hcomplcol (i % cols) (Nat.mod_lt _ hcpos)))]
        simp
    have hcanvas : (allOccupied rows cols).clearCompletedLines.1 =
        Canvas.mk cols rows (List.replicate (rows * cols) PointStatus.Empty) := by
      have heta : (allOccupied rows cols).clearCompletedLines.1 =
          Canvas.mk ((allOccupied rows cols).clearCompletedLines.1.columns)
            ((allOccupied rows cols).clearCompletedLines.1.rows)
            ((allOccupied rows cols).clearCompletedLines.1.contents) := rfl
      rw [heta, hcols, hrows, hcontents]
      rfl
    have hsplit : (allOccupied rows cols).clearCompletedLines =
        ((allOccupied rows cols).clearCompletedLines.1,
          (allOccupied rows cols).clearCompletedLines.2) := rfl
    rw [hsplit, hcanvas, hcount2]

/-- A concrete 2x2 board whose top row (indices 0 and 1) is complete. -/
def witnessBoard : Canvas := ⟨2, 2, [.Occupied, .Occupied, .Empty, .Empty]⟩

/-- Witness for C1 at a concrete well-formed board with one complete row. -/
theorem clear_completed_lines_spec_witness :
    (witnessBoard.contents.length = witnessBoard.rows * witnessBoard.columns) ∧
    (PointStatus.MarkedForRemoval ∉ witnessBoard.contents) ∧
    (witnessBoard.clearCompletedLines.2 =
        completedColumnCount witnessBoard + completedRowCount witnessBoard ∧
      witnessBoard.clearCompletedLines.1.columns = witnessBoard.columns ∧
      witnessBoard.clearCompletedLines.1.rows = witnessBoard.rows ∧
      witnessBoard.clearCompletedLines.1.contents = clearSpecContents witnessBoard) :=
  ⟨by decide, by decide,
   clear_completed_lines_spec.1 witnessBoard (by decide) (by decide)⟩

end JCBlocks
